import Mathlib

/-!
Shallow embedding of the item-requirement aggregation core of the
arc-loot-helper application.

Source files embedded:
- src/src/App.tsx (the itemRequirements module quoted there):
  aggregateQuestRequirements, aggregateHideoutRequirements,
  aggregateProjectRequirements, calculateItemRequirements,
  calculateCompletedRequirements
- src/unnamed/part_004: calculateRemainingRequirements and
  useRemainingRequirementsStore (calculate / getQuantityNeeded)
- src/src/utils/progressKeys.ts: getHideoutKey, getProjectKey
- src/unnamed/part_020: the data types (Quest, HideoutModule, Project,
  GameProgress, ItemRequirements)

Modelling decisions:
- A JS object used as a string-keyed map (`ItemRequirements`,
  `progress.quests` etc.) is modelled as an association list
  `List (String × α)` with JS object semantics: lookup finds the first
  matching key, assignment updates the first matching key in place and
  appends a fresh key at the end.  This preserves insertion order, which
  is observable through `Object.entries`.
- JS numbers holding item quantities are modelled as `Int` (quantities in
  the code are integers; no fractional or overflow behaviour is relevant
  to the claims).  Level / phase numbers are `Nat` and their JS
  string-interpolation is `toString`.
- Fields of the TypeScript interfaces never read by the embedded
  functions (names, descriptions, xp, timestamps, ...) are omitted.
- A JS runtime throw (iterating `undefined`) is modelled by `Except Unit`:
  `aggregateHideoutRequirements` iterates `level.requirementItemIds`
  without a guard, so it is the one embedded function that can throw.
-/

/-- Entry of a requirement list: `{ itemId, quantity }` (src/unnamed/part_020). -/
structure ItemRequirementEntry where
  itemId : String
  quantity : Int
deriving Repr, DecidableEq

/-- `ItemRequirements = Record<string, number>` (src/unnamed/part_020), as a
JS object: ordered association list with unique keys produced by assignment. -/
abbrev ItemRequirements := List (String × Int)

/-- Quest: only the fields the aggregation core reads (`id`,
`requiredItemIds?`); src/unnamed/part_020. -/
structure Quest where
  id : String
  requiredItemIds : Option (List ItemRequirementEntry)
deriving Repr, DecidableEq

/-- HideoutModuleLevel: `level` and `requirementItemIds`
(src/unnamed/part_020).  The TypeScript type declares `requirementItemIds`
as required; it is modelled as `Option` so that inputs lacking it (and the
resulting JS throw) can be expressed. -/
structure HideoutModuleLevel where
  level : Nat
  requirementItemIds : Option (List ItemRequirementEntry)
deriving Repr, DecidableEq

/-- HideoutModule: `id` and `levels` (src/unnamed/part_020). -/
structure HideoutModule where
  id : String
  levels : List HideoutModuleLevel
deriving Repr, DecidableEq

/-- ProjectPhase: `phase`, optional `requirementItemIds`, optional
`requirementCategories` (src/unnamed/part_020).  The categories map is
carried but never read by the aggregation core. -/
structure ProjectPhase where
  phase : Nat
  requirementItemIds : Option (List ItemRequirementEntry)
  requirementCategories : Option (List (String × Int)) := none
deriving Repr, DecidableEq

/-- Project: `id` and `phases` (src/unnamed/part_020). -/
structure Project where
  id : String
  phases : List ProjectPhase
deriving Repr, DecidableEq

/-- QuestProgress: only the `completed` flag is read by the core. -/
structure QuestProgress where
  completed : Bool
deriving Repr, DecidableEq

/-- HideoutProgress: only the `completed` flag is read by the core. -/
structure HideoutProgress where
  completed : Bool
deriving Repr, DecidableEq

/-- ProjectProgress: only the `completed` flag is read by the core. -/
structure ProjectProgress where
  completed : Bool
deriving Repr, DecidableEq

/-- GameProgress (src/unnamed/part_020): three string-keyed progress maps
plus a schema version. -/
structure GameProgress where
  quests : List (String × QuestProgress)
  hideout : List (String × HideoutProgress)
  projects : List (String × ProjectProgress)
  version : Nat
deriving Repr, DecidableEq

/-- GameData (src/unnamed/part_020): the catalog lists the store consumes. -/
structure GameData where
  quests : List Quest
  hideoutModules : List HideoutModule
  projects : List Project
deriving Repr, DecidableEq

/-- JS object property read `obj[k]`: first entry with the given key. -/
def alook {α : Type} : List (String × α) → String → Option α
  | [], _ => none
  | (k', v) :: rest, k => if k' = k then some v else alook rest k

/-- Read of `m[k] || 0` (and of `completed[itemId] || 0`): the stored value
with default `0`.  `v || 0` equals `v` for every integer except `0`, where
it is `0` as well, so the JS falsy coercion is value-preserving. -/
def getD (m : ItemRequirements) (k : String) : Int :=
  (alook m k).getD 0

/-- JS statement `m[k] = (m[k] || 0) + q` on an object map: update the first
occurrence of `k` in place, or append `(k, q)` when `k` is fresh. -/
def addTo : ItemRequirements → String → Int → ItemRequirements
  | [], k, q => [(k, q)]
  | (k', v) :: rest, k, q =>
      if k' = k then (k', v + q) :: rest else (k', v) :: addTo rest k q

/-- JS statement `m[k] = v` on an object map: overwrite the first
occurrence of `k`, or append `(k, v)` when `k` is fresh. -/
def setKey : ItemRequirements → String → Int → ItemRequirements
  | [], k, v => [(k, v)]
  | (k', w) :: rest, k, v =>
      if k' = k then (k', v) :: rest else (k', w) :: setKey rest k v

/-- Inner loop shared by every aggregator:
`for (const entry of entries) { acc[entry.itemId] = (acc[entry.itemId] || 0) + entry.quantity }`. -/
def foldEntries (acc : ItemRequirements) (entries : List ItemRequirementEntry) : ItemRequirements :=
  entries.foldl (fun a e => addTo a e.itemId e.quantity) acc

/-- getHideoutKey (src/src/utils/progressKeys.ts): the template literal
`` `${moduleId}-${level}` ``. -/
def getHideoutKey (moduleId : String) (level : Nat) : String :=
  moduleId ++ "-" ++ toString level

/-- getProjectKey (src/src/utils/progressKeys.ts): the template literal
`` `${projectId}-${phase}` ``. -/
def getProjectKey (projectId : String) (phase : Nat) : String :=
  projectId ++ "-" ++ toString phase

/-- aggregateQuestRequirements (src/src/App.tsx lines 63-75): skip quests
whose `requiredItemIds` is missing, sum the entries of the rest. -/
def aggregateQuestRequirements (quests : List Quest) : ItemRequirements :=
  quests.foldl
    (fun acc quest =>
      match quest.requiredItemIds with
      | none => acc
      | some entries => foldEntries acc entries)
    []

/-- Inner level loop of aggregateHideoutRequirements: iterating
`level.requirementItemIds` with no guard throws when the list is missing. -/
def foldLevels (acc : ItemRequirements) : List HideoutModuleLevel → Except Unit ItemRequirements
  | [] => .ok acc
  | lvl :: rest =>
      match lvl.requirementItemIds with
      | none => .error ()
      | some entries => foldLevels (foldEntries acc entries) rest

/-- Outer module loop of aggregateHideoutRequirements. -/
def foldModules (acc : ItemRequirements) : List HideoutModule → Except Unit ItemRequirements
  | [] => .ok acc
  | m :: rest =>
      match foldLevels acc m.levels with
      | .error e => .error e
      | .ok acc' => foldModules acc' rest

/-- aggregateHideoutRequirements (src/src/App.tsx lines 81-93): sums every
level's `requirementItemIds`; unlike the quest and project extractors it
has no missing-list guard, so a level without the list throws. -/
def aggregateHideoutRequirements (modules : List HideoutModule) : Except Unit ItemRequirements :=
  foldModules [] modules

/-- Phase loop of aggregateProjectRequirements: phases without
`requirementItemIds` are skipped (`requirementCategories` is ignored). -/
def foldPhases (acc : ItemRequirements) (phases : List ProjectPhase) : ItemRequirements :=
  phases.foldl
    (fun a ph =>
      match ph.requirementItemIds with
      | none => a
      | some entries => foldEntries a entries)
    acc

/-- aggregateProjectRequirements (src/src/App.tsx lines 104-123). -/
def aggregateProjectRequirements (projects : List Project) : ItemRequirements :=
  projects.foldl (fun acc p => foldPhases acc p.phases) []

/-- addRequirements helper of calculateItemRequirements (src/src/App.tsx
lines 147-151): `for (const [itemId, quantity] of Object.entries(reqs))
totalRequirements[itemId] = (totalRequirements[itemId] || 0) + quantity`. -/
def addRequirements (tgt : ItemRequirements) (src : ItemRequirements) : ItemRequirements :=
  src.foldl (fun a kv => addTo a kv.1 kv.2) tgt

/-- calculateItemRequirements (src/src/App.tsx lines 134-158): the three
extractor outputs merged additively into a fresh map.  The hideout
extractor may throw, which propagates. -/
def calculateItemRequirements (quests : List Quest) (modules : List HideoutModule)
    (projects : List Project) : Except Unit ItemRequirements :=
  let questReqs := aggregateQuestRequirements quests
  match aggregateHideoutRequirements modules with
  | .error e => .error e
  | .ok hideoutReqs =>
      let projectReqs := aggregateProjectRequirements projects
      .ok (addRequirements (addRequirements (addRequirements [] questReqs) hideoutReqs) projectReqs)

/-- Read `progress.quests[quest.id]?.completed`, coerced to a boolean by the
`!`-guard: absent entry reads as `false`. -/
def questCompletedFlag (progress : GameProgress) (id : String) : Bool :=
  match alook progress.quests id with
  | some p => p.completed
  | none => false

/-- Read `progress.hideout[key]?.completed` for `key = getHideoutKey moduleId level`. -/
def hideoutCompletedFlag (progress : GameProgress) (moduleId : String) (level : Nat) : Bool :=
  match alook progress.hideout (getHideoutKey moduleId level) with
  | some p => p.completed
  | none => false

/-- Read `progress.projects[key]?.completed` for `key = getProjectKey projectId phase`. -/
def projectCompletedFlag (progress : GameProgress) (projectId : String) (phase : Nat) : Bool :=
  match alook progress.projects (getProjectKey projectId phase) with
  | some p => p.completed
  | none => false

/-- calculateCompletedRequirements (src/src/App.tsx lines 170-218): three
sequential loops over quests, hideout module levels and project phases,
each guarded by the corresponding completion flag and by presence of the
requirement list. -/
def calculateCompletedRequirements (progress : GameProgress) (quests : List Quest)
    (hideoutModules : List HideoutModule) (projects : List Project) : ItemRequirements :=
  projects.foldl
    (fun acc p =>
      p.phases.foldl
        (fun acc2 ph =>
          if projectCompletedFlag progress p.id ph.phase then
            match ph.requirementItemIds with
            | none => acc2
            | some entries => foldEntries acc2 entries
          else acc2)
        acc)
    (hideoutModules.foldl
      (fun acc m =>
        m.levels.foldl
          (fun acc2 lvl =>
            if hideoutCompletedFlag progress m.id lvl.level then
              match lvl.requirementItemIds with
              | none => acc2
              | some entries => foldEntries acc2 entries
            else acc2)
          acc)
      (quests.foldl
        (fun acc quest =>
          if questCompletedFlag progress quest.id then
            match quest.requiredItemIds with
            | none => acc
            | some entries => foldEntries acc entries
          else acc)
        []))

/-- calculateRemainingRequirements (src/unnamed/part_004 lines 2449-2466):
`for each [itemId, totalQuantity] of Object.entries(total)`, clamp
`totalQuantity - (completed[itemId] || 0)` at zero and store only strictly
positive remainders. -/
def calculateRemainingRequirements (total : ItemRequirements) (completed : ItemRequirements) :
    ItemRequirements :=
  total.foldl
    (fun remaining kv =>
      let completedQuantity := getD completed kv.1
      let remainingQuantity := max 0 (kv.2 - completedQuantity)
      if 0 < remainingQuantity then setKey remaining kv.1 remainingQuantity else remaining)
    []

/-- Body of the store's `calculate` (src/unnamed/part_004 lines 2707-2732)
once gameData is present: total, completed, then remaining. -/
def storePipeline (gd : GameData) (progress : GameProgress) : Except Unit ItemRequirements :=
  match calculateItemRequirements gd.quests gd.hideoutModules gd.projects with
  | .error e => .error e
  | .ok total =>
      let completed :=
        calculateCompletedRequirements progress gd.quests gd.hideoutModules gd.projects
      .ok (calculateRemainingRequirements total completed)

/-- useRemainingRequirementsStore.calculate (src/unnamed/part_004 lines
2707-2732) as a state transition on the cached `remaining` slot:
`calculate(null, _)` sets the cache to `null`; otherwise the pipeline runs
and its result replaces the cache; a throw inside the pipeline propagates
before `set`, leaving the previous cache in place. -/
def storeCalculate (gameData : Option GameData) (progress : GameProgress)
    (cache : Option ItemRequirements) : Option ItemRequirements :=
  match gameData with
  | none => none
  | some gd =>
      match storePipeline gd progress with
      | .ok remaining => some remaining
      | .error _ => cache

/-- useRemainingRequirementsStore.getQuantityNeeded (src/unnamed/part_004
lines 2734-2736): `get().remaining?.[itemId] ?? 0`. -/
def getQuantityNeeded (cache : Option ItemRequirements) (itemId : String) : Int :=
  ((cache.bind (fun m => alook m itemId)).getD 0)

/-! Specification-side views: per-key contribution sums.  These are the
mathematical readings of the loops above; the lemmas below connect the
executable folds to them. -/

/-- Sum of the quantities an entry list contributes to one item id. -/
def entriesSum (entries : List ItemRequirementEntry) (k : String) : Int :=
  (entries.map (fun e => if e.itemId = k then e.quantity else 0)).sum

/-- Sum of the values an association list carries for one key (counts every
occurrence; equals `getD` on unique-key lists). -/
def pairsSum (m : ItemRequirements) (k : String) : Int :=
  (m.map (fun kv => if kv.1 = k then kv.2 else 0)).sum

/-- Contribution of one quest to one item id. -/
def questContrib (q : Quest) (k : String) : Int :=
  match q.requiredItemIds with
  | none => 0
  | some entries => entriesSum entries k

/-- Contribution of one hideout level to one item id. -/
def levelContrib (lvl : HideoutModuleLevel) (k : String) : Int :=
  match lvl.requirementItemIds with
  | none => 0
  | some entries => entriesSum entries k

/-- Contribution of one project phase to one item id. -/
def phaseContrib (ph : ProjectPhase) (k : String) : Int :=
  match ph.requirementItemIds with
  | none => 0
  | some entries => entriesSum entries k

/-- Total quest-source requirement for one item id. -/
def questsReqSum (quests : List Quest) (k : String) : Int :=
  (quests.map (fun q => questContrib q k)).sum

/-- Total hideout-source requirement for one item id. -/
def modulesReqSum (modules : List HideoutModule) (k : String) : Int :=
  (modules.map (fun m => (m.levels.map (fun lvl => levelContrib lvl k)).sum)).sum

/-- Total project-source requirement for one item id. -/
def projectsReqSum (projects : List Project) (k : String) : Int :=
  (projects.map (fun p => (p.phases.map (fun ph => phaseContrib ph k)).sum)).sum

/-- Completed quest-source requirement for one item id: only quests whose
progress entry is marked completed contribute. -/
def completedQuestsSpec (progress : GameProgress) (quests : List Quest) (k : String) : Int :=
  (quests.map (fun q => if questCompletedFlag progress q.id then questContrib q k else 0)).sum

/-- Completed hideout-source requirement for one item id: a level contributes
exactly when the progress entry stored under the composite-key string
`moduleId ++ "-" ++ level` is marked completed. -/
def completedHideoutSpec (progress : GameProgress) (modules : List HideoutModule) (k : String) :
    Int :=
  (modules.map (fun m =>
    (m.levels.map (fun lvl =>
      if (match alook progress.hideout (m.id ++ "-" ++ toString lvl.level) with
          | some p => p.completed
          | none => false) then levelContrib lvl k else 0)).sum)).sum

/-- Completed project-source requirement for one item id: a phase contributes
exactly when the progress entry stored under the composite-key string
`projectId ++ "-" ++ phase` is marked completed. -/
def completedProjectsSpec (progress : GameProgress) (projects : List Project) (k : String) :
    Int :=
  (projects.map (fun p =>
    (p.phases.map (fun ph =>
      if (match alook progress.projects (p.id ++ "-" ++ toString ph.phase) with
          | some pp => pp.completed
          | none => false) then phaseContrib ph k else 0)).sum)).sum

/-- All values stored in a map are strictly positive. -/
abbrev allPos (m : ItemRequirements) : Prop := ∀ kv ∈ m, 0 < kv.2

/-- Requirement-list option whose entries are all strictly positive. -/
abbrev entriesPos (o : Option (List ItemRequirementEntry)) : Prop :=
  ∀ e ∈ o.getD [], 0 < e.quantity

/-- Catalogs in which every requirement quantity is strictly positive. -/
abbrev catalogQuantitiesPos (quests : List Quest) (modules : List HideoutModule)
    (projects : List Project) : Prop :=
  (∀ q ∈ quests, entriesPos q.requiredItemIds) ∧
  (∀ m ∈ modules, ∀ lvl ∈ m.levels, entriesPos lvl.requirementItemIds) ∧
  (∀ p ∈ projects, ∀ ph ∈ p.phases, entriesPos ph.requirementItemIds)

/-- Requirement-list option whose entries are all non-negative. -/
abbrev entriesNonneg (o : Option (List ItemRequirementEntry)) : Prop :=
  ∀ e ∈ o.getD [], 0 ≤ e.quantity

/-- Catalogs in which every requirement quantity is non-negative. -/
abbrev catalogQuantitiesNonneg (quests : List Quest) (modules : List HideoutModule)
    (projects : List Project) : Prop :=
  (∀ q ∈ quests, entriesNonneg q.requiredItemIds) ∧
  (∀ m ∈ modules, ∀ lvl ∈ m.levels, entriesNonneg lvl.requirementItemIds) ∧
  (∀ p ∈ projects, ∀ ph ∈ p.phases, entriesNonneg ph.requirementItemIds)

example : getHideoutKey "scrappy" 2 = "scrappy-2" := by decide
example : aggregateQuestRequirements
    [⟨"q1", some [⟨"metal-parts", 10⟩, ⟨"spring", 5⟩]⟩, ⟨"q2", some [⟨"metal-parts", 20⟩]⟩] =
    [("metal-parts", 30), ("spring", 5)] := by decide
example : calculateRemainingRequirements [("a", 50)] [("a", 70)] = [] := by decide
example : calculateRemainingRequirements [("a", 100)] [] = [("a", 100)] := by decide
example : aggregateHideoutRequirements [⟨"m", [⟨1, none⟩]⟩] = .error () := rfl

/-! Basic lemmas about the association-list map primitives. -/

/-- `alook` after `addTo`: the touched key reads the incremented value, every
other key is untouched. -/
lemma alook_addTo (m : ItemRequirements) (k : String) (q : Int) (k' : String) :
    alook (addTo m k q) k' = if k = k' then some (getD m k + q) else alook m k' := by
  induction m with
  | nil =>
      by_cases h : k = k' <;> simp [addTo, alook, getD, h]
  | cons kv rest ih =>
      obtain ⟨a, v⟩ := kv
      by_cases hak : a = k
      · subst hak
        by_cases h : a = k' <;> simp [addTo, alook, getD, h]
      · by_cases h : a = k'
        · subst h
          have hkk : ¬ (k = a) := fun hh => hak hh.symm
          simp [addTo, alook, getD, hak, hkk]
        · simp [addTo, alook, getD, hak, h, ih]

/-- `getD` after `addTo`. -/
lemma getD_addTo (m : ItemRequirements) (k : String) (q : Int) (k' : String) :
    getD (addTo m k q) k' = getD m k' + (if k = k' then q else 0) := by
  by_cases h : k = k'
  · subst h
    simp [getD, alook_addTo]
  · simp [getD, alook_addTo, h]

/-- `alook` after `setKey`: the touched key reads the written value, every
other key is untouched. -/
lemma alook_setKey (m : ItemRequirements) (k : String) (v : Int) (k' : String) :
    alook (setKey m k v) k' = if k = k' then some v else alook m k' := by
  induction m with
  | nil =>
      by_cases h : k = k' <;> simp [setKey, alook, h]
  | cons kv rest ih =>
      obtain ⟨a, w⟩ := kv
      by_cases hak : a = k
      · subst hak
        by_cases h : a = k' <;> simp [setKey, alook, h]
      · by_cases h : a = k'
        · subst h
          have hkk : ¬ (k = a) := fun hh => hak hh.symm
          simp [setKey, alook, hak, hkk]
        · simp [setKey, alook, hak, h, ih]

/-- Keys never looked up read as `none`. -/
lemma alook_eq_none_of_not_mem {α : Type} (m : List (String × α)) (k : String)
    (h : k ∉ m.map Prod.fst) : alook m k = none := by
  induction m with
  | nil => simp [alook]
  | cons kv rest ih =>
      obtain ⟨a, v⟩ := kv
      simp only [List.map_cons, List.mem_cons] at h
      push_neg at h
      have hak : a ≠ k := fun hh => h.1 hh.symm
      simp [alook, hak, ih h.2]

/-- A successful lookup exhibits a member of the list. -/
lemma alook_mem {α : Type} (m : List (String × α)) (k : String) (v : α)
    (h : alook m k = some v) : (k, v) ∈ m := by
  induction m with
  | nil => simp [alook] at h
  | cons kv rest ih =>
      obtain ⟨a, w⟩ := kv
      by_cases hak : a = k
      · subst hak
        simp [alook] at h
        simp [h]
      · simp [alook, hak] at h
        exact List.mem_cons_of_mem _ (ih h)

/-- `pairsSum` of a key absent from the list is `0`. -/
lemma pairsSum_eq_zero_of_not_mem (m : ItemRequirements) (k : String)
    (h : k ∉ m.map Prod.fst) : pairsSum m k = 0 := by
  induction m with
  | nil => simp [pairsSum]
  | cons kv rest ih =>
      obtain ⟨a, v⟩ := kv
      simp only [List.map_cons, List.mem_cons] at h
      push_neg at h
      have hak : a ≠ k := fun hh => h.1 hh.symm
      have hrest := ih h.2
      simp only [pairsSum, List.map_cons, List.sum_cons] at hrest ⊢
      simp [hak, hrest]

/-- On a unique-key list, the per-key occurrence sum is the stored value. -/
lemma pairsSum_eq_getD (m : ItemRequirements) (k : String)
    (h : (m.map Prod.fst).Nodup) : pairsSum m k = getD m k := by
  induction m with
  | nil => simp [pairsSum, getD, alook]
  | cons kv rest ih =>
      obtain ⟨a, v⟩ := kv
      simp only [List.map_cons, List.nodup_cons] at h
      by_cases hak : a = k
      · subst hak
        have hz := pairsSum_eq_zero_of_not_mem rest a h.1
        simp [pairsSum, getD, alook] at hz ⊢
        exact hz
      · have := ih h.2
        simp [pairsSum, getD, alook, hak] at this ⊢
        exact this

/-- Fold-step preservation: a predicate stable under every step of a
`foldl` holds of the result. -/
lemma foldl_preserve {α β : Type} (P : α → Prop) (f : α → β → α) :
    ∀ (l : List β), (∀ a x, x ∈ l → P a → P (f a x)) → ∀ acc, P acc → P (l.foldl f acc) := by
  intro l
  induction l with
  | nil => intro _ acc h; simpa using h
  | cons x xs ih =>
      intro hstep acc h
      simp only [List.foldl_cons]
      exact ih (fun a y hy ha => hstep a y (List.mem_cons_of_mem _ hy) ha) _
        (hstep acc x (List.mem_cons_self _ _) h)

/-- Generic per-key reading of a `foldl` whose step adds a per-element
contribution to one key. -/
lemma getD_foldl_contrib {β : Type} (f : ItemRequirements → β → ItemRequirements)
    (c : β → String → Int)
    (hf : ∀ acc x k, getD (f acc x) k = getD acc k + c x k) :
    ∀ (l : List β) (acc : ItemRequirements) (k : String),
      getD (l.foldl f acc) k = getD acc k + (l.map (fun x => c x k)).sum := by
  intro l
  induction l with
  | nil => intro acc k; simp
  | cons x xs ih =>
      intro acc k
      simp only [List.foldl_cons, List.map_cons, List.sum_cons]
      rw [ih, hf]
      ring

/-- `foldEntries` adds exactly `entriesSum` to every key. -/
lemma getD_foldEntries (acc : ItemRequirements) (entries : List ItemRequirementEntry)
    (k : String) : getD (foldEntries acc entries) k = getD acc k + entriesSum entries k := by
  simpa [foldEntries, entriesSum] using
    getD_foldl_contrib (fun a e => addTo a e.itemId e.quantity)
      (fun e k => if e.itemId = k then e.quantity else 0)
      (fun a e kk => getD_addTo a e.itemId e.quantity kk) entries acc k

/-- `addRequirements` adds exactly `pairsSum` of the source to every key. -/
lemma getD_addRequirements (tgt src : ItemRequirements) (k : String) :
    getD (addRequirements tgt src) k = getD tgt k + pairsSum src k := by
  simpa [addRequirements, pairsSum] using
    getD_foldl_contrib (fun a kv => addTo a kv.1 kv.2)
      (fun kv k => if kv.1 = k then kv.2 else 0)
      (fun a kv kk => getD_addTo a kv.1 kv.2 kk) src tgt k

/-! Per-key readings of the three extractors and of the merge. -/

/-- `getD` of the empty map. -/
lemma getD_nil (k : String) : getD [] k = 0 := rfl

/-- Quest extractor, read per key: the sum of quest contributions. -/
lemma getD_aggregateQuestRequirements (quests : List Quest) (k : String) :
    getD (aggregateQuestRequirements quests) k = questsReqSum quests k := by
  have h := getD_foldl_contrib
    (fun acc quest =>
      match quest.requiredItemIds with
      | none => acc
      | some entries => foldEntries acc entries)
    questContrib
    (fun acc q kk => by
      cases hq : q.requiredItemIds with
      | none => simp [questContrib, hq]
      | some entries => simp [questContrib, hq, getD_foldEntries])
    quests [] k
  simpa [aggregateQuestRequirements, questsReqSum, getD_nil] using h

/-- Phase loop, read per key. -/
lemma getD_foldPhases (acc : ItemRequirements) (phases : List ProjectPhase) (k : String) :
    getD (foldPhases acc phases) k =
      getD acc k + (phases.map (fun ph => phaseContrib ph k)).sum := by
  have h := getD_foldl_contrib
    (fun a ph =>
      match ph.requirementItemIds with
      | none => a
      | some entries => foldEntries a entries)
    phaseContrib
    (fun a ph kk => by
      cases hp : ph.requirementItemIds with
      | none => simp [phaseContrib, hp]
      | some entries => simp [phaseContrib, hp, getD_foldEntries])
    phases acc k
  simpa [foldPhases] using h

/-- Project extractor, read per key: the sum of phase contributions. -/
lemma getD_aggregateProjectRequirements (projects : List Project) (k : String) :
    getD (aggregateProjectRequirements projects) k = projectsReqSum projects k := by
  have h := getD_foldl_contrib
    (fun acc p => foldPhases acc p.phases)
    (fun p kk => (p.phases.map (fun ph => phaseContrib ph kk)).sum)
    (fun acc p kk => getD_foldPhases acc p.phases kk)
    projects [] k
  simpa [aggregateProjectRequirements, projectsReqSum, getD_nil] using h

/-- Level loop: with every requirement list present it returns normally and
adds the level contributions to every key. -/
lemma foldLevels_ok (levels : List HideoutModuleLevel)
    (hs : ∀ lvl ∈ levels, lvl.requirementItemIds ≠ none) :
    ∀ acc, ∃ r, foldLevels acc levels = .ok r ∧
      ∀ k, getD r k = getD acc k + (levels.map (fun lvl => levelContrib lvl k)).sum := by
  induction levels with
  | nil => intro acc; exact ⟨acc, rfl, by simp⟩
  | cons lvl rest ih =>
      intro acc
      cases hr : lvl.requirementItemIds with
      | none => exact absurd hr (hs lvl (List.mem_cons_self _ _))
      | some entries =>
          obtain ⟨r, hfold, hval⟩ :=
            ih (fun l hl => hs l (List.mem_cons_of_mem _ hl)) (foldEntries acc entries)
          refine ⟨r, by simp [foldLevels, hr, hfold], fun k => ?_⟩
          rw [hval k, getD_foldEntries]
          simp [levelContrib, hr]
          ring

/-- Level loop: a single missing requirement list makes it throw. -/
lemma foldLevels_error (levels : List HideoutModuleLevel)
    (hs : ∃ lvl ∈ levels, lvl.requirementItemIds = none) :
    ∀ acc, foldLevels acc levels = .error () := by
  induction levels with
  | nil => simp at hs
  | cons lvl rest ih =>
      intro acc
      cases hr : lvl.requirementItemIds with
      | none => simp [foldLevels, hr]
      | some entries =>
          obtain ⟨w, hw, hwnone⟩ := hs
          rcases List.mem_cons.mp hw with h1 | h2
          · subst h1; rw [hr] at hwnone; cases hwnone
          · simp [foldLevels, hr, ih ⟨w, h2, hwnone⟩]

/-- Module loop: with every requirement list present it returns normally and
adds the module contributions to every key. -/
lemma foldModules_ok (modules : List HideoutModule)
    (hs : ∀ m ∈ modules, ∀ lvl ∈ m.levels, lvl.requirementItemIds ≠ none) :
    ∀ acc, ∃ r, foldModules acc modules = .ok r ∧
      ∀ k, getD r k = getD acc k +
        (modules.map (fun m => (m.levels.map (fun lvl => levelContrib lvl k)).sum)).sum := by
  induction modules with
  | nil => intro acc; exact ⟨acc, rfl, by simp⟩
  | cons m rest ih =>
      intro acc
      obtain ⟨r1, hfold1, hval1⟩ :=
        foldLevels_ok m.levels (hs m (List.mem_cons_self _ _)) acc
      obtain ⟨r, hfold, hval⟩ :=
        ih (fun m' hm' => hs m' (List.mem_cons_of_mem _ hm')) r1
      refine ⟨r, by simp [foldModules, hfold1, hfold], fun k => ?_⟩
      rw [hval k, hval1 k]
      simp
      ring

/-- Module loop: a single missing requirement list anywhere makes it throw. -/
lemma foldModules_error (modules : List HideoutModule)
    (hs : ∃ m ∈ modules, ∃ lvl ∈ m.levels, lvl.requirementItemIds = none) :
    ∀ acc, foldModules acc modules = .error () := by
  induction modules with
  | nil => simp at hs
  | cons m rest ih =>
      intro acc
      obtain ⟨w, hw, hwnone⟩ := hs
      rcases List.mem_cons.mp hw with h1 | h2
      · rw [h1] at hwnone
        have herr := foldLevels_error m.levels hwnone acc
        simp [foldModules, herr]
      · cases hfold : foldLevels acc m.levels with
        | error e => cases e; simp [foldModules, hfold]
        | ok acc' => simp [foldModules, hfold, ih ⟨w, h2, hwnone⟩]

/-! Key-uniqueness of every object map the code builds, and positivity of
the stored values. -/

/-- Keys after `addTo`: the touched key, plus the old keys. -/
lemma mem_keys_addTo (m : ItemRequirements) (k q x) :
    x ∈ (addTo m k q).map Prod.fst ↔ x ∈ m.map Prod.fst ∨ x = k := by
  induction m with
  | nil => simp [addTo]
  | cons kv rest ih =>
      obtain ⟨a, v⟩ := kv
      by_cases hak : a = k
      · subst hak
        simp [addTo]
        tauto
      · simp [addTo, hak, ih]
        tauto

/-- `addTo` keeps the keys unique. -/
lemma nodup_keys_addTo (m : ItemRequirements) (k q)
    (h : (m.map Prod.fst).Nodup) : ((addTo m k q).map Prod.fst).Nodup := by
  induction m with
  | nil => simp [addTo]
  | cons kv rest ih =>
      obtain ⟨a, v⟩ := kv
      simp only [List.map_cons, List.nodup_cons] at h
      by_cases hak : a = k
      · subst hak
        simpa [addTo] using h
      · have hmem : a ∉ (addTo rest k q).map Prod.fst := by
          rw [mem_keys_addTo]
          push_neg
          exact ⟨h.1, hak⟩
        simp [addTo, hak, List.nodup_cons, hmem, ih h.2]

/-- `foldEntries` keeps the keys unique. -/
lemma nodup_keys_foldEntries (acc : ItemRequirements) (entries : List ItemRequirementEntry)
    (h : (acc.map Prod.fst).Nodup) : ((foldEntries acc entries).map Prod.fst).Nodup := by
  unfold foldEntries
  exact foldl_preserve (fun m => (m.map Prod.fst).Nodup)
    (fun a e => addTo a e.itemId e.quantity) entries
    (fun a e _ ha => nodup_keys_addTo a e.itemId e.quantity ha) acc h

/-- The quest extractor builds a unique-key map. -/
lemma nodup_keys_aggregateQuestRequirements (quests : List Quest) :
    ((aggregateQuestRequirements quests).map Prod.fst).Nodup := by
  unfold aggregateQuestRequirements
  refine foldl_preserve (fun (m : ItemRequirements) => (m.map Prod.fst).Nodup)
    (fun acc quest =>
      match quest.requiredItemIds with
      | none => acc
      | some entries => foldEntries acc entries)
    quests (fun a q _ ha => ?_) [] (by simp)
  cases hq : q.requiredItemIds with
  | none => simpa [hq] using ha
  | some entries => simpa [hq] using nodup_keys_foldEntries a entries ha

/-- The project extractor builds a unique-key map. -/
lemma nodup_keys_aggregateProjectRequirements (projects : List Project) :
    ((aggregateProjectRequirements projects).map Prod.fst).Nodup := by
  unfold aggregateProjectRequirements
  refine foldl_preserve (fun (m : ItemRequirements) => (m.map Prod.fst).Nodup)
    (fun acc p => foldPhases acc p.phases) projects
    (fun a p _ ha => ?_) [] (by simp)
  unfold foldPhases
  refine foldl_preserve (fun (m : ItemRequirements) => (m.map Prod.fst).Nodup)
    (fun a2 ph =>
      match ph.requirementItemIds with
      | none => a2
      | some entries => foldEntries a2 entries)
    p.phases (fun a2 ph _ ha2 => ?_) a ha
  cases hp : ph.requirementItemIds with
  | none => simpa [hp] using ha2
  | some entries => simpa [hp] using nodup_keys_foldEntries a2 entries ha2

/-- The level loop keeps the keys unique. -/
lemma nodup_keys_foldLevels (levels : List HideoutModuleLevel) :
    ∀ acc r, foldLevels acc levels = .ok r → (acc.map Prod.fst).Nodup →
      (r.map Prod.fst).Nodup := by
  induction levels with
  | nil =>
      intro acc r h ha
      simp [foldLevels] at h
      exact h ▸ ha
  | cons lvl rest ih =>
      intro acc r h ha
      cases hr : lvl.requirementItemIds with
      | none => simp [foldLevels, hr] at h
      | some entries =>
          simp only [foldLevels, hr] at h
          exact ih _ r h (nodup_keys_foldEntries acc entries ha)

/-- The module loop keeps the keys unique. -/
lemma nodup_keys_foldModules (modules : List HideoutModule) :
    ∀ acc r, foldModules acc modules = .ok r → (acc.map Prod.fst).Nodup →
      (r.map Prod.fst).Nodup := by
  induction modules with
  | nil =>
      intro acc r h ha
      simp [foldModules] at h
      exact h ▸ ha
  | cons m rest ih =>
      intro acc r h ha
      cases hfold : foldLevels acc m.levels with
      | error e => simp [foldModules, hfold] at h
      | ok acc' =>
          simp only [foldModules, hfold] at h
          exact ih _ r h (nodup_keys_foldLevels m.levels acc acc' hfold ha)

/-- A successful hideout extraction is a unique-key map. -/
lemma nodup_keys_aggregateHideoutRequirements (modules : List HideoutModule)
    (r : ItemRequirements) (h : aggregateHideoutRequirements modules = .ok r) :
    (r.map Prod.fst).Nodup :=
  nodup_keys_foldModules modules [] r h (by simp)

/-- Unpacking `entriesPos` at a present list. -/
lemma entriesPos_some {o : Option (List ItemRequirementEntry)}
    {entries : List ItemRequirementEntry} (h : entriesPos o) (hr : o = some entries) :
    ∀ e ∈ entries, 0 < e.quantity := by
  subst hr
  simpa [entriesPos] using h

/-- Unpacking `entriesNonneg` at a present list. -/
lemma entriesNonneg_some {o : Option (List ItemRequirementEntry)}
    {entries : List ItemRequirementEntry} (h : entriesNonneg o) (hr : o = some entries) :
    ∀ e ∈ entries, 0 ≤ e.quantity := by
  subst hr
  simpa [entriesNonneg] using h

/-- Adding a positive quantity keeps every stored value positive. -/
lemma allPos_addTo (m : ItemRequirements) (k : String) (q : Int)
    (hm : allPos m) (hq : 0 < q) : allPos (addTo m k q) := by
  induction m with
  | nil =>
      intro kv hkv
      simp [addTo] at hkv
      simp [hkv, hq]
  | cons kv0 rest ih =>
      obtain ⟨a, v⟩ := kv0
      have hv : 0 < v := hm (a, v) (List.mem_cons_self _ _)
      have hrest : allPos rest := fun kv hkv => hm kv (List.mem_cons_of_mem _ hkv)
      by_cases hak : a = k
      · subst hak
        intro kv hkv
        simp [addTo] at hkv
        rcases hkv with h1 | h2
        · simp [h1]; positivity
        · exact hrest kv h2
      · intro kv hkv
        simp [addTo, hak] at hkv
        rcases hkv with h1 | h2
        · simp [h1, hv]
        · exact ih hrest kv h2

/-- Writing a positive quantity keeps every stored value positive. -/
lemma allPos_setKey (m : ItemRequirements) (k : String) (v : Int)
    (hm : allPos m) (hv : 0 < v) : allPos (setKey m k v) := by
  induction m with
  | nil =>
      intro kv hkv
      simp [setKey] at hkv
      simp [hkv, hv]
  | cons kv0 rest ih =>
      obtain ⟨a, w⟩ := kv0
      have hw : 0 < w := hm (a, w) (List.mem_cons_self _ _)
      have hrest : allPos rest := fun kv hkv => hm kv (List.mem_cons_of_mem _ hkv)
      by_cases hak : a = k
      · subst hak
        intro kv hkv
        simp [setKey] at hkv
        rcases hkv with h1 | h2
        · simp [h1, hv]
        · exact hrest kv h2
      · intro kv hkv
        simp [setKey, hak] at hkv
        rcases hkv with h1 | h2
        · simp [h1, hw]
        · exact ih hrest kv h2

/-- The entry loop keeps every stored value positive when the added
quantities are positive. -/
lemma allPos_foldEntries (acc : ItemRequirements) (entries : List ItemRequirementEntry)
    (hacc : allPos acc) (hq : ∀ e ∈ entries, 0 < e.quantity) :
    allPos (foldEntries acc entries) := by
  unfold foldEntries
  exact foldl_preserve allPos (fun a e => addTo a e.itemId e.quantity) entries
    (fun a e he ha => allPos_addTo a e.itemId e.quantity ha (hq e he)) acc hacc

/-- The quest extractor stores positive values under positive catalogs. -/
lemma allPos_aggregateQuestRequirements (quests : List Quest)
    (h : ∀ q ∈ quests, entriesPos q.requiredItemIds) :
    allPos (aggregateQuestRequirements quests) := by
  unfold aggregateQuestRequirements
  refine foldl_preserve allPos
    (fun acc quest =>
      match quest.requiredItemIds with
      | none => acc
      | some entries => foldEntries acc entries)
    quests (fun a q hq ha => ?_) [] (by intro kv hkv; simp at hkv)
  cases hr : q.requiredItemIds with
  | none => simpa [hr] using ha
  | some entries =>
      simpa [hr] using allPos_foldEntries a entries ha (entriesPos_some (h q hq) hr)

/-- The project extractor stores positive values under positive catalogs. -/
lemma allPos_aggregateProjectRequirements (projects : List Project)
    (h : ∀ p ∈ projects, ∀ ph ∈ p.phases, entriesPos ph.requirementItemIds) :
    allPos (aggregateProjectRequirements projects) := by
  unfold aggregateProjectRequirements
  refine foldl_preserve allPos (fun acc p => foldPhases acc p.phases) projects
    (fun a p hp ha => ?_) [] (by intro kv hkv; simp at hkv)
  unfold foldPhases
  refine foldl_preserve allPos
    (fun a2 ph =>
      match ph.requirementItemIds with
      | none => a2
      | some entries => foldEntries a2 entries)
    p.phases (fun a2 ph hph ha2 => ?_) a ha
  cases hr : ph.requirementItemIds with
  | none => simpa [hr] using ha2
  | some entries =>
      simpa [hr] using allPos_foldEntries a2 entries ha2 (entriesPos_some (h p hp ph hph) hr)

/-- The level loop stores positive values under positive catalogs. -/
lemma allPos_foldLevels (levels : List HideoutModuleLevel)
    (h : ∀ lvl ∈ levels, entriesPos lvl.requirementItemIds) :
    ∀ acc r, foldLevels acc levels = .ok r → allPos acc → allPos r := by
  induction levels with
  | nil =>
      intro acc r hr ha
      simp [foldLevels] at hr
      exact hr ▸ ha
  | cons lvl rest ih =>
      intro acc r hr ha
      cases hl : lvl.requirementItemIds with
      | none => simp [foldLevels, hl] at hr
      | some entries =>
          simp only [foldLevels, hl] at hr
          exact ih (fun l hl2 => h l (List.mem_cons_of_mem _ hl2)) _ r hr
            (allPos_foldEntries acc entries ha (entriesPos_some (h lvl (List.mem_cons_self _ _)) hl))

/-- The module loop stores positive values under positive catalogs. -/
lemma allPos_foldModules (modules : List HideoutModule)
    (h : ∀ m ∈ modules, ∀ lvl ∈ m.levels, entriesPos lvl.requirementItemIds) :
    ∀ acc r, foldModules acc modules = .ok r → allPos acc → allPos r := by
  induction modules with
  | nil =>
      intro acc r hr ha
      simp [foldModules] at hr
      exact hr ▸ ha
  | cons m rest ih =>
      intro acc r hr ha
      cases hfold : foldLevels acc m.levels with
      | error e => simp [foldModules, hfold] at hr
      | ok acc' =>
          simp only [foldModules, hfold] at hr
          exact ih (fun m' hm' => h m' (List.mem_cons_of_mem _ hm')) _ r hr
            (allPos_foldLevels m.levels (h m (List.mem_cons_self _ _)) acc acc' hfold ha)

/-- The merge helper stores positive values when both sides do. -/
lemma allPos_addRequirements (tgt src : ItemRequirements)
    (htgt : allPos tgt) (hsrc : allPos src) : allPos (addRequirements tgt src) := by
  unfold addRequirements
  exact foldl_preserve allPos (fun a kv => addTo a kv.1 kv.2) src
    (fun a kv hkv ha => allPos_addTo a kv.1 kv.2 ha (hsrc kv hkv)) tgt htgt

/-! Per-key reading of the completed calculator, and its positivity. -/

/-- Hideout module loop of the completed calculator, read per key. -/
lemma getD_completedHideoutStep (progress : GameProgress) (m : HideoutModule)
    (acc : ItemRequirements) (k : String) :
    getD (m.levels.foldl
      (fun acc2 lvl =>
        if hideoutCompletedFlag progress m.id lvl.level then
          match lvl.requirementItemIds with
          | none => acc2
          | some entries => foldEntries acc2 entries
        else acc2)
      acc) k =
    getD acc k +
      (m.levels.map (fun lvl =>
        if hideoutCompletedFlag progress m.id lvl.level then levelContrib lvl k else 0)).sum := by
  refine getD_foldl_contrib _
    (fun lvl kk => if hideoutCompletedFlag progress m.id lvl.level then levelContrib lvl kk else 0)
    (fun a lvl kk => ?_) m.levels acc k
  by_cases hflag : hideoutCompletedFlag progress m.id lvl.level
  · cases hr : lvl.requirementItemIds with
    | none => simp [hflag, hr, levelContrib]
    | some entries => simp [hflag, hr, levelContrib, getD_foldEntries]
  · simp [hflag]

/-- Project phase loop of the completed calculator, read per key. -/
lemma getD_completedProjectStep (progress : GameProgress) (p : Project)
    (acc : ItemRequirements) (k : String) :
    getD (p.phases.foldl
      (fun acc2 ph =>
        if projectCompletedFlag progress p.id ph.phase then
          match ph.requirementItemIds with
          | none => acc2
          | some entries => foldEntries acc2 entries
        else acc2)
      acc) k =
    getD acc k +
      (p.phases.map (fun ph =>
        if projectCompletedFlag progress p.id ph.phase then phaseContrib ph k else 0)).sum := by
  refine getD_foldl_contrib _
    (fun ph kk => if projectCompletedFlag progress p.id ph.phase then phaseContrib ph kk else 0)
    (fun a ph kk => ?_) p.phases acc k
  by_cases hflag : projectCompletedFlag progress p.id ph.phase
  · cases hr : ph.requirementItemIds with
    | none => simp [hflag, hr, phaseContrib]
    | some entries => simp [hflag, hr, phaseContrib, getD_foldEntries]
  · simp [hflag]

/-- The completed calculator, read per key: the sum of the contributions of
exactly the entities whose progress entry is marked completed, the hideout
and project entries being addressed by their composite-key strings. -/
lemma getD_calculateCompletedRequirements (progress : GameProgress) (quests : List Quest)
    (modules : List HideoutModule) (projects : List Project) (k : String) :
    getD (calculateCompletedRequirements progress quests modules projects) k =
      completedQuestsSpec progress quests k + completedHideoutSpec progress modules k +
        completedProjectsSpec progress projects k := by
  unfold calculateCompletedRequirements
  have hquest := getD_foldl_contrib
    (fun acc quest =>
      if questCompletedFlag progress quest.id then
        match quest.requiredItemIds with
        | none => acc
        | some entries => foldEntries acc entries
      else acc)
    (fun q kk => if questCompletedFlag progress q.id then questContrib q kk else 0)
    (fun a q kk => by
      by_cases hflag : questCompletedFlag progress q.id
      · cases hr : q.requiredItemIds with
        | none => simp [hflag, hr, questContrib]
        | some entries => simp [hflag, hr, questContrib, getD_foldEntries]
      · simp [hflag])
    quests [] k
  have hmods := getD_foldl_contrib
    (fun acc m =>
      m.levels.foldl
        (fun acc2 lvl =>
          if hideoutCompletedFlag progress m.id lvl.level then
            match lvl.requirementItemIds with
            | none => acc2
            | some entries => foldEntries acc2 entries
          else acc2)
        acc)
    (fun m kk =>
      (m.levels.map (fun lvl =>
        if hideoutCompletedFlag progress m.id lvl.level then levelContrib lvl kk else 0)).sum)
    (fun a m kk => getD_completedHideoutStep progress m a kk)
    modules
    (quests.foldl
      (fun acc quest =>
        if questCompletedFlag progress quest.id then
          match quest.requiredItemIds with
          | none => acc
          | some entries => foldEntries acc entries
        else acc)
      [])
    k
  have hproj := getD_foldl_contrib
    (fun acc p =>
      p.phases.foldl
        (fun acc2 ph =>
          if projectCompletedFlag progress p.id ph.phase then
            match ph.requirementItemIds with
            | none => acc2
            | some entries => foldEntries acc2 entries
          else acc2)
        acc)
    (fun p kk =>
      (p.phases.map (fun ph =>
        if projectCompletedFlag progress p.id ph.phase then phaseContrib ph kk else 0)).sum)
    (fun a p kk => getD_completedProjectStep progress p a kk)
    projects
    (modules.foldl
      (fun acc m =>
        m.levels.foldl
          (fun acc2 lvl =>
            if hideoutCompletedFlag progress m.id lvl.level then
              match lvl.requirementItemIds with
              | none => acc2
              | some entries => foldEntries acc2 entries
            else acc2)
          acc)
      (quests.foldl
        (fun acc quest =>
          if questCompletedFlag progress quest.id then
            match quest.requiredItemIds with
            | none => acc
            | some entries => foldEntries acc entries
          else acc)
        []))
    k
  rw [hproj, hmods, hquest]
  simp only [getD_nil, zero_add, completedQuestsSpec, completedHideoutSpec,
    completedProjectsSpec, hideoutCompletedFlag, projectCompletedFlag, getHideoutKey,
    getProjectKey]

/-- The completed calculator stores positive values under positive catalogs. -/
lemma allPos_calculateCompletedRequirements (progress : GameProgress) (quests : List Quest)
    (modules : List HideoutModule) (projects : List Project)
    (h : catalogQuantitiesPos quests modules projects) :
    allPos (calculateCompletedRequirements progress quests modules projects) := by
  unfold calculateCompletedRequirements
  have h1 : allPos (quests.foldl
      (fun acc quest =>
        if questCompletedFlag progress quest.id then
          match quest.requiredItemIds with
          | none => acc
          | some entries => foldEntries acc entries
        else acc)
      []) := by
    refine foldl_preserve allPos _ quests (fun a q hq ha => ?_) [] (by intro kv hkv; simp at hkv)
    by_cases hflag : questCompletedFlag progress q.id
    · cases hr : q.requiredItemIds with
      | none => simpa [hflag, hr] using ha
      | some entries =>
          simpa [hflag, hr] using allPos_foldEntries a entries ha (entriesPos_some (h.1 q hq) hr)
    · simpa [hflag] using ha
  have h2 : allPos (modules.foldl
      (fun acc m =>
        m.levels.foldl
          (fun acc2 lvl =>
            if hideoutCompletedFlag progress m.id lvl.level then
              match lvl.requirementItemIds with
              | none => acc2
              | some entries => foldEntries acc2 entries
            else acc2)
          acc)
      (quests.foldl
        (fun acc quest =>
          if questCompletedFlag progress quest.id then
            match quest.requiredItemIds with
            | none => acc
            | some entries => foldEntries acc entries
          else acc)
        [])) := by
    refine foldl_preserve allPos _ modules (fun a m hm ha => ?_) _ h1
    refine foldl_preserve allPos _ m.levels (fun a2 lvl hlvl ha2 => ?_) a ha
    by_cases hflag : hideoutCompletedFlag progress m.id lvl.level
    · cases hr : lvl.requirementItemIds with
      | none => simpa [hflag, hr] using ha2
      | some entries =>
          simpa [hflag, hr] using allPos_foldEntries a2 entries ha2 (entriesPos_some (h.2.1 m hm lvl hlvl) hr)
    · simpa [hflag] using ha2
  refine foldl_preserve allPos _ projects (fun a p hp ha => ?_) _ h2
  refine foldl_preserve allPos _ p.phases (fun a2 ph hph ha2 => ?_) a ha
  by_cases hflag : projectCompletedFlag progress p.id ph.phase
  · cases hr : ph.requirementItemIds with
    | none => simpa [hflag, hr] using ha2
    | some entries =>
        simpa [hflag, hr] using allPos_foldEntries a2 entries ha2 (entriesPos_some (h.2.2 p hp ph hph) hr)
  · simpa [hflag] using ha2

/-! Per-key reading of the remaining calculator. -/

/-- Keys after `setKey`: the touched key, plus the old keys. -/
lemma mem_keys_setKey (m : ItemRequirements) (k v x) :
    x ∈ (setKey m k v).map Prod.fst ↔ x ∈ m.map Prod.fst ∨ x = k := by
  induction m with
  | nil => simp [setKey]
  | cons kv0 rest ih =>
      obtain ⟨a, w⟩ := kv0
      by_cases hak : a = k
      · subst hak
        simp [setKey]
        tauto
      · simp [setKey, hak, ih]
        tauto

/-- Loop of calculateRemainingRequirements, read per key, generalized over
the accumulator: keys of the pending list are mapped to their clamped
remainder when positive, other keys read from the accumulator. -/
lemma alook_remaining_fold (completed : ItemRequirements) :
    ∀ (l : List (String × Int)) (acc : ItemRequirements),
      (l.map Prod.fst).Nodup →
      (∀ x ∈ l.map Prod.fst, x ∉ acc.map Prod.fst) →
      ∀ k,
        alook (l.foldl
          (fun remaining kv =>
            if 0 < max 0 (kv.2 - getD completed kv.1) then
              setKey remaining kv.1 (max 0 (kv.2 - getD completed kv.1))
            else remaining)
          acc) k =
        if k ∈ l.map Prod.fst then
          (match alook l k with
           | none => none
           | some tq =>
               if 0 < max 0 (tq - getD completed k) then some (max 0 (tq - getD completed k))
               else none)
        else alook acc k := by
  intro l
  induction l with
  | nil =>
      intro acc _ _ k
      simp
  | cons kv0 rest ih =>
      intro acc hnodup hdisj k
      obtain ⟨a, tq0⟩ := kv0
      simp only [List.map_cons, List.nodup_cons] at hnodup
      have hdisj' : ∀ x ∈ rest.map Prod.fst,
          x ∉ (if 0 < max 0 (tq0 - getD completed a) then
            setKey acc a (max 0 (tq0 - getD completed a)) else acc).map Prod.fst := by
        intro x hx
        have hxa : x ≠ a := fun hh => hnodup.1 (hh ▸ hx)
        have hxacc : x ∉ acc.map Prod.fst :=
          hdisj x (by simp [hx])
        by_cases hpos : 0 < max 0 (tq0 - getD completed a)
        · simp only [hpos, if_true, mem_keys_setKey]
          push_neg
          exact ⟨hxacc, hxa⟩
        · simpa [hpos] using hxacc
      have := ih _ hnodup.2 hdisj' k
      simp only [List.foldl_cons]
      rw [this]
      by_cases hkrest : k ∈ rest.map Prod.fst
      · have hka : ¬ (a = k) := fun hh => hnodup.1 (hh ▸ hkrest)
        simp [hkrest, alook, hka]
      · by_cases hka : k = a
        · subst hka
          have hkacc : k ∉ acc.map Prod.fst := hdisj k (by simp)
          by_cases hpos : 0 < max 0 (tq0 - getD completed k)
          · simp [hkrest, hpos, alook_setKey, alook]
          · simp [hkrest, hpos, alook, alook_eq_none_of_not_mem acc k hkacc]
        · have hka' : ¬ (a = k) := fun hh => hka hh.symm
          by_cases hpos : 0 < max 0 (tq0 - getD completed a)
          · simp [hkrest, hka, hka', hpos, alook_setKey, alook]
          · simp [hkrest, hka, hka', hpos, alook]

/-- calculateRemainingRequirements, read per key: on unique-key totals, each
key of `total` maps to its positive clamped remainder and every other key is
absent. -/
lemma alook_calculateRemainingRequirements (total completed : ItemRequirements)
    (h : (total.map Prod.fst).Nodup) (k : String) :
    alook (calculateRemainingRequirements total completed) k =
      match alook total k with
      | none => none
      | some tq =>
          if 0 < max 0 (tq - getD completed k) then some (max 0 (tq - getD completed k))
          else none := by
  have hfold := alook_remaining_fold completed total [] h (by simp) k
  by_cases hk : k ∈ total.map Prod.fst
  · rw [calculateRemainingRequirements]
    simpa [hk] using hfold
  · have hnone : alook total k = none := alook_eq_none_of_not_mem total k hk
    rw [calculateRemainingRequirements]
    simpa [hk, hnone, alook] using hfold

/-- The remaining map stores only strictly positive values, for every pair
of input maps. -/
lemma allPos_calculateRemainingRequirements (total completed : ItemRequirements) :
    allPos (calculateRemainingRequirements total completed) := by
  unfold calculateRemainingRequirements
  refine foldl_preserve allPos _ total (fun a kv _ ha => ?_) [] (by intro kv hkv; simp at hkv)
  by_cases hpos : 0 < max 0 (kv.2 - getD completed kv.1)
  · simpa [hpos] using allPos_setKey a kv.1 _ ha hpos
  · simpa [hpos] using ha

/-! Dependence of the completed calculator on the progress snapshot. -/

/-- Successful hideout extraction, read per key. -/
lemma getD_aggregateHideoutRequirements (modules : List HideoutModule)
    (hs : ∀ m ∈ modules, ∀ lvl ∈ m.levels, lvl.requirementItemIds ≠ none) :
    ∃ r, aggregateHideoutRequirements modules = .ok r ∧
      ∀ k, getD r k = modulesReqSum modules k := by
  obtain ⟨r, hfold, hval⟩ := foldModules_ok modules hs []
  exact ⟨r, hfold, fun k => by simpa [modulesReqSum, getD_nil] using hval k⟩

/-- The completed calculator reads progress only through the three
completion flags of the catalog entities it walks. -/
lemma calculateCompletedRequirements_congr (pr pr' : GameProgress) (quests : List Quest)
    (modules : List HideoutModule) (projects : List Project)
    (hq : ∀ q ∈ quests, questCompletedFlag pr q.id = questCompletedFlag pr' q.id)
    (hh : ∀ m ∈ modules, ∀ lvl ∈ m.levels,
      hideoutCompletedFlag pr m.id lvl.level = hideoutCompletedFlag pr' m.id lvl.level)
    (hp : ∀ p ∈ projects, ∀ ph ∈ p.phases,
      projectCompletedFlag pr p.id ph.phase = projectCompletedFlag pr' p.id ph.phase) :
    calculateCompletedRequirements pr quests modules projects =
      calculateCompletedRequirements pr' quests modules projects := by
  unfold calculateCompletedRequirements
  have h1 : quests.foldl
      (fun acc quest =>
        if questCompletedFlag pr quest.id then
          match quest.requiredItemIds with
          | none => acc
          | some entries => foldEntries acc entries
        else acc) [] =
    quests.foldl
      (fun acc quest =>
        if questCompletedFlag pr' quest.id then
          match quest.requiredItemIds with
          | none => acc
          | some entries => foldEntries acc entries
        else acc) [] := by
    refine List.foldl_ext _ _ _ ?_
    intro a q hq2
    rw [hq q hq2]
  rw [h1]
  have h2 : ∀ acc : ItemRequirements, modules.foldl
      (fun acc m =>
        m.levels.foldl
          (fun acc2 lvl =>
            if hideoutCompletedFlag pr m.id lvl.level then
              match lvl.requirementItemIds with
              | none => acc2
              | some entries => foldEntries acc2 entries
            else acc2)
          acc) acc =
    modules.foldl
      (fun acc m =>
        m.levels.foldl
          (fun acc2 lvl =>
            if hideoutCompletedFlag pr' m.id lvl.level then
              match lvl.requirementItemIds with
              | none => acc2
              | some entries => foldEntries acc2 entries
            else acc2)
          acc) acc := by
    intro acc
    refine List.foldl_ext _ _ _ ?_
    intro a m hm
    refine List.foldl_ext _ _ _ ?_
    intro a2 lvl hlvl
    rw [hh m hm lvl hlvl]
  rw [h2]
  refine List.foldl_ext _ _ _ ?_
  intro a p hp2
  refine List.foldl_ext _ _ _ ?_
  intro a2 ph hph
  rw [hp p hp2 ph hph]

/-! Comparison lemmas used for the completed-vs-total bound. -/

/-- Entry sums are non-negative when every quantity is. -/
lemma entriesSum_nonneg (entries : List ItemRequirementEntry) (k : String)
    (h : ∀ e ∈ entries, 0 ≤ e.quantity) : 0 ≤ entriesSum entries k := by
  refine List.sum_nonneg ?_
  intro x hx
  simp only [List.mem_map] at hx
  obtain ⟨e, he, rfl⟩ := hx
  by_cases hek : e.itemId = k
  · simpa [hek] using h e he
  · simp [hek]

/-- Quest contributions are non-negative when every quantity is. -/
lemma questContrib_nonneg (q : Quest) (k : String) (h : entriesNonneg q.requiredItemIds) :
    0 ≤ questContrib q k := by
  cases hr : q.requiredItemIds with
  | none => simp [questContrib, hr]
  | some entries => simpa [questContrib, hr] using entriesSum_nonneg entries k (entriesNonneg_some h hr)

/-- Level contributions are non-negative when every quantity is. -/
lemma levelContrib_nonneg (lvl : HideoutModuleLevel) (k : String)
    (h : entriesNonneg lvl.requirementItemIds) : 0 ≤ levelContrib lvl k := by
  cases hr : lvl.requirementItemIds with
  | none => simp [levelContrib, hr]
  | some entries => simpa [levelContrib, hr] using entriesSum_nonneg entries k (entriesNonneg_some h hr)

/-- Phase contributions are non-negative when every quantity is. -/
lemma phaseContrib_nonneg (ph : ProjectPhase) (k : String)
    (h : entriesNonneg ph.requirementItemIds) : 0 ≤ phaseContrib ph k := by
  cases hr : ph.requirementItemIds with
  | none => simp [phaseContrib, hr]
  | some entries => simpa [phaseContrib, hr] using entriesSum_nonneg entries k (entriesNonneg_some h hr)

/-- Completed quest portion never exceeds the total quest portion. -/
lemma completedQuestsSpec_le (progress : GameProgress) (quests : List Quest) (k : String)
    (h : ∀ q ∈ quests, entriesNonneg q.requiredItemIds) :
    completedQuestsSpec progress quests k ≤ questsReqSum quests k := by
  refine List.sum_le_sum ?_
  intro q hq
  by_cases hflag : questCompletedFlag progress q.id
  · simp [hflag]
  · simpa [hflag] using questContrib_nonneg q k (h q hq)

/-- Completed hideout portion never exceeds the total hideout portion. -/
lemma completedHideoutSpec_le (progress : GameProgress) (modules : List HideoutModule)
    (k : String) (h : ∀ m ∈ modules, ∀ lvl ∈ m.levels, entriesNonneg lvl.requirementItemIds) :
    completedHideoutSpec progress modules k ≤ modulesReqSum modules k := by
  refine List.sum_le_sum ?_
  intro m hm
  refine List.sum_le_sum ?_
  intro lvl hlvl
  by_cases hflag : (match alook progress.hideout (m.id ++ "-" ++ toString lvl.level) with
    | some p => p.completed
    | none => false)
  · simp [hflag]
  · simp only [hflag, if_false]
    exact levelContrib_nonneg lvl k (h m hm lvl hlvl)

/-- Completed project portion never exceeds the total project portion. -/
lemma completedProjectsSpec_le (progress : GameProgress) (projects : List Project)
    (k : String) (h : ∀ p ∈ projects, ∀ ph ∈ p.phases, entriesNonneg ph.requirementItemIds) :
    completedProjectsSpec progress projects k ≤ projectsReqSum projects k := by
  refine List.sum_le_sum ?_
  intro p hp
  refine List.sum_le_sum ?_
  intro ph hph
  by_cases hflag : (match alook progress.projects (p.id ++ "-" ++ toString ph.phase) with
    | some pp => pp.completed
    | none => false)
  · simp [hflag]
  · simp only [hflag, if_false]
    exact phaseContrib_nonneg ph k (h p hp ph hph)

/-- Phase loop on a project whose phases all lack requirement lists is the
identity on the accumulator. -/
lemma foldPhases_all_none (acc : ItemRequirements) (phases : List ProjectPhase)
    (h : ∀ ph ∈ phases, ph.requirementItemIds = none) : foldPhases acc phases = acc := by
  induction phases with
  | nil => rfl
  | cons ph rest ih =>
      have hph := h ph (List.mem_cons_self _ _)
      simp only [foldPhases, List.foldl_cons] at ih ⊢
      rw [hph]
      exact ih (fun p hp => h p (List.mem_cons_of_mem _ hp))

/-- Per-key reading of a successful calculateItemRequirements run: the three
extractor portions add up. -/
lemma getD_calculateItemRequirements (quests : List Quest) (modules : List HideoutModule)
    (projects : List Project) (hreqs : ItemRequirements)
    (hok : aggregateHideoutRequirements modules = .ok hreqs) :
    ∃ t, calculateItemRequirements quests modules projects = .ok t ∧
      ∀ k, getD t k = getD (aggregateQuestRequirements quests) k + getD hreqs k +
        getD (aggregateProjectRequirements projects) k := by
  refine ⟨addRequirements (addRequirements (addRequirements [] (aggregateQuestRequirements quests))
      hreqs) (aggregateProjectRequirements projects),
    by simp [calculateItemRequirements, hok], fun k => ?_⟩
  rw [getD_addRequirements, getD_addRequirements, getD_addRequirements]
  rw [pairsSum_eq_getD _ _ (nodup_keys_aggregateQuestRequirements quests),
    pairsSum_eq_getD _ _ (nodup_keys_aggregateHideoutRequirements modules hreqs hok),
    pairsSum_eq_getD _ _ (nodup_keys_aggregateProjectRequirements projects)]
  simp [getD_nil]

/-- Fold whose step leaves the accumulator unchanged on every list element. -/
lemma foldl_skip {α β : Type} (f : α → β → α) (l : List β)
    (h : ∀ a x, x ∈ l → f a x = a) : ∀ acc, l.foldl f acc = acc := by
  induction l with
  | nil => intro acc; rfl
  | cons x xs ih =>
      intro acc
      rw [List.foldl_cons, h acc x (List.mem_cons_self _ _)]
      exact ih (fun a y hy => h a y (List.mem_cons_of_mem _ hy)) acc

/-- C1: for every pair of requirement maps, calculateRemainingRequirements
maps each key of `total` to max(0, total[k] - (completed[k] or 0)), includes
the key exactly when that value is strictly positive, never emits a key
absent from `total` (so keys present only in `completed` are ignored), and
an empty `total` yields an empty output for every `completed`.  The keys of
`total` are assumed unique, as the entries of a JS object are. -/
theorem claim_C1_remaining_requirements_pointwise (total completed : ItemRequirements)
    (h : (total.map Prod.fst).Nodup) :
    (∀ k, alook (calculateRemainingRequirements total completed) k =
      match alook total k with
      | none => none
      | some tq =>
          if 0 < max 0 (tq - getD completed k) then some (max 0 (tq - getD completed k))
          else none) ∧
    calculateRemainingRequirements [] completed = [] :=
  ⟨fun k => alook_calculateRemainingRequirements total completed h k, rfl⟩

/-- Witness for C1: total a=50,b=5 against completed a=70,b=2; the
over-completed key a disappears and b keeps remainder 3. -/
theorem claim_C1_remaining_requirements_pointwise_witness :
    alook (calculateRemainingRequirements [("a", 50), ("b", 5)] [("a", 70), ("b", 2)]) "b" =
      some 3 ∧
    alook (calculateRemainingRequirements [("a", 50), ("b", 5)] [("a", 70), ("b", 2)]) "a" =
      none := by
  have h := (claim_C1_remaining_requirements_pointwise [("a", 50), ("b", 5)]
    [("a", 70), ("b", 2)] (by decide)).1
  exact ⟨(h "b").trans (by decide), (h "a").trans (by decide)⟩

/-- C2: whenever the hideout extraction succeeds, calculateItemRequirements
succeeds and its output reads, for every item id, as the sum of the three
extractor portions, missing keys reading as 0. -/
theorem claim_C2_total_is_sum_of_three_sources (quests : List Quest)
    (modules : List HideoutModule) (projects : List Project) (hreqs : ItemRequirements)
    (hok : aggregateHideoutRequirements modules = .ok hreqs) :
    (∃ t, calculateItemRequirements quests modules projects = .ok t) ∧
    (∀ t, calculateItemRequirements quests modules projects = .ok t →
      ∀ k, getD t k = getD (aggregateQuestRequirements quests) k + getD hreqs k +
        getD (aggregateProjectRequirements projects) k) := by
  obtain ⟨t, ht, hval⟩ := getD_calculateItemRequirements quests modules projects hreqs hok
  refine ⟨⟨t, ht⟩, fun t' ht' k => ?_⟩
  have : t' = t := by
    rw [ht] at ht'
    exact (Except.ok.injEq _ _).mp ht'.symm
  rw [this]
  exact hval k

/-- Witness for C2: one quest (a×10), one hideout level (a×5), one project
phase (a×2) merge to a×17. -/
theorem claim_C2_total_is_sum_of_three_sources_witness :
    getD [("a", 17)] "a" =
      getD (aggregateQuestRequirements [⟨"q1", some [⟨"a", 10⟩]⟩]) "a" + getD [("a", 5)] "a" +
        getD (aggregateProjectRequirements [⟨"p1", [⟨1, some [⟨"a", 2⟩], none⟩]⟩]) "a" :=
  (claim_C2_total_is_sum_of_three_sources [⟨"q1", some [⟨"a", 10⟩]⟩]
    [⟨"m1", [⟨1, some [⟨"a", 5⟩]⟩]⟩] [⟨"p1", [⟨1, some [⟨"a", 2⟩], none⟩]⟩]
    [("a", 5)] rfl).2 [("a", 17)] rfl "a"

/-- C3: calculateCompletedRequirements reads, for every item id, as the sum
of the contributions of exactly those quests whose progress entry under the
quest id is marked completed, those hideout levels whose progress entry
under the composite key moduleId-level is marked completed, and those
project phases whose progress entry under projectId-phase is marked
completed; each level and phase counts independently and an entity absent
from progress or with a false flag contributes nothing. -/
theorem claim_C3_completed_requirements_exactly_flagged (progress : GameProgress)
    (quests : List Quest) (modules : List HideoutModule) (projects : List Project)
    (k : String) :
    getD (calculateCompletedRequirements progress quests modules projects) k =
      completedQuestsSpec progress quests k + completedHideoutSpec progress modules k +
        completedProjectsSpec progress projects k :=
  getD_calculateCompletedRequirements progress quests modules projects k

/-- C7: the quest extractor is additive under list concatenation, read
per key (the per-key sum merge). -/
theorem claim_C7_quest_extractor_additive (A B : List Quest) (k : String) :
    getD (aggregateQuestRequirements (A ++ B)) k =
      getD (aggregateQuestRequirements A) k + getD (aggregateQuestRequirements B) k := by
  rw [getD_aggregateQuestRequirements, getD_aggregateQuestRequirements,
    getD_aggregateQuestRequirements]
  simp [questsReqSum]

/-- C8: getQuantityNeeded returns the cached remaining quantity of the item,
and 0 when the item is absent from the cached map or the cache is still
null; being a total function of the embedding it never throws. -/
theorem claim_C8_get_quantity_needed (cache : Option ItemRequirements) (itemId : String) :
    (cache = none → getQuantityNeeded cache itemId = 0) ∧
    (∀ m, cache = some m → alook m itemId = none → getQuantityNeeded cache itemId = 0) ∧
    (∀ m v, cache = some m → alook m itemId = some v → getQuantityNeeded cache itemId = v) := by
  refine ⟨fun hc => ?_, fun m hc hm => ?_, fun m v hc hm => ?_⟩
  · subst hc; rfl
  · subst hc; simp [getQuantityNeeded, hm]
  · subst hc; simp [getQuantityNeeded, hm]

/-- Witness for C8: null cache and absent key read 0, a present key reads
its stored value. -/
theorem claim_C8_get_quantity_needed_witness :
    getQuantityNeeded none "metal-parts" = 0 ∧
    getQuantityNeeded (some [("metal-parts", 75)]) "spring" = 0 ∧
    getQuantityNeeded (some [("metal-parts", 75)]) "metal-parts" = 75 :=
  ⟨(claim_C8_get_quantity_needed none "metal-parts").1 rfl,
   (claim_C8_get_quantity_needed (some [("metal-parts", 75)]) "spring").2.1
     [("metal-parts", 75)] rfl (by decide),
   (claim_C8_get_quantity_needed (some [("metal-parts", 75)]) "metal-parts").2.2
     [("metal-parts", 75)] 75 rfl (by decide)⟩

/-- C9: the store's calculate is idempotent on its cached remaining map:
running it a second time with unchanged gameData and progress leaves the
cache exactly as after the first run, whatever the starting cache was. -/
theorem claim_C9_store_calculate_idempotent (gameData : Option GameData)
    (progress : GameProgress) (cache : Option ItemRequirements) :
    storeCalculate gameData progress (storeCalculate gameData progress cache) =
      storeCalculate gameData progress cache := by
  cases gameData with
  | none => rfl
  | some gd =>
      cases h : storePipeline gd progress with
      | ok r => simp [storeCalculate, h]
      | error e => simp [storeCalculate, h]

/-- Counterexample to C4 as stated: the hideout extractor does not tolerate
a level lacking its requirement-entry list — on the module scrappy with a
single bare level it reaches the throwing branch instead of returning
normally, so the error branch is reachable. -/
theorem claim_C4_counterexample :
    ¬ (∀ modules : List HideoutModule, ∃ r, aggregateHideoutRequirements modules = .ok r) := by
  intro h
  obtain ⟨r, hr⟩ := h [⟨"scrappy", [⟨1, none⟩]⟩]
  exact Except.noConfusion hr

/-- C4 (amended): in every catalog, a quest lacking its requirement-entry
list and a project phase lacking its requirement-entry list contribute
nothing to their extractors, which return normally (removing the bare
entity, wherever it sits, leaves the output unchanged), and
calculateCompletedRequirements returns normally with any bare quest,
hideout level or project phase contributing nothing;
aggregateHideoutRequirements, however, returns normally exactly when every
level carries its requirement-entry list and throws whenever some level
lacks it. -/
theorem claim_C4_missing_lists_amended :
    (∀ (A B : List Quest) (q : Quest), q.requiredItemIds = none →
      aggregateQuestRequirements (A ++ q :: B) = aggregateQuestRequirements (A ++ B)) ∧
    (∀ (P1 P2 : List Project) (pid : String) (phsA phsB : List ProjectPhase)
        (ph : ProjectPhase), ph.requirementItemIds = none →
      aggregateProjectRequirements (P1 ++ ⟨pid, phsA ++ ph :: phsB⟩ :: P2) =
        aggregateProjectRequirements (P1 ++ ⟨pid, phsA ++ phsB⟩ :: P2)) ∧
    (∀ modules : List HideoutModule,
      (∀ m ∈ modules, ∀ lvl ∈ m.levels, lvl.requirementItemIds ≠ none) →
      ∃ r, aggregateHideoutRequirements modules = .ok r) ∧
    (∀ modules : List HideoutModule,
      (∃ m ∈ modules, ∃ lvl ∈ m.levels, lvl.requirementItemIds = none) →
      aggregateHideoutRequirements modules = .error ()) ∧
    (∀ (progress : GameProgress) (A B : List Quest) (q : Quest)
        (modules : List HideoutModule) (projects : List Project), q.requiredItemIds = none →
      calculateCompletedRequirements progress (A ++ q :: B) modules projects =
        calculateCompletedRequirements progress (A ++ B) modules projects) ∧
    (∀ (progress : GameProgress) (quests : List Quest) (H1 H2 : List HideoutModule)
        (mid : String) (lvlA lvlB : List HideoutModuleLevel) (lvl : HideoutModuleLevel)
        (projects : List Project), lvl.requirementItemIds = none →
      calculateCompletedRequirements progress quests (H1 ++ ⟨mid, lvlA ++ lvl :: lvlB⟩ :: H2)
          projects =
        calculateCompletedRequirements progress quests (H1 ++ ⟨mid, lvlA ++ lvlB⟩ :: H2)
          projects) ∧
    (∀ (progress : GameProgress) (quests : List Quest) (modules : List HideoutModule)
        (P1 P2 : List Project) (pid : String) (phsA phsB : List ProjectPhase)
        (ph : ProjectPhase), ph.requirementItemIds = none →
      calculateCompletedRequirements progress quests modules
          (P1 ++ ⟨pid, phsA ++ ph :: phsB⟩ :: P2) =
        calculateCompletedRequirements progress quests modules
          (P1 ++ ⟨pid, phsA ++ phsB⟩ :: P2)) := by
  refine ⟨?_, ?_, ?_, ?_, ?_, ?_, ?_⟩
  · intro A B q h
    unfold aggregateQuestRequirements
    rw [List.foldl_append, List.foldl_append, List.foldl_cons]
    congr 1
    simp [h]
  · intro P1 P2 pid phsA phsB ph h
    unfold aggregateProjectRequirements
    rw [List.foldl_append, List.foldl_append, List.foldl_cons, List.foldl_cons]
    congr 1
    dsimp only
    unfold foldPhases
    rw [List.foldl_append, List.foldl_append, List.foldl_cons]
    congr 1
    simp [h]
  · intro modules h
    obtain ⟨r, hr, _⟩ := foldModules_ok modules h []
    exact ⟨r, hr⟩
  · intro modules h
    exact foldModules_error modules h []
  · intro progress A B q modules projects h
    unfold calculateCompletedRequirements
    congr 1
    congr 1
    rw [List.foldl_append, List.foldl_append, List.foldl_cons]
    congr 1
    simp [h]
  · intro progress quests H1 H2 mid lvlA lvlB lvl projects h
    unfold calculateCompletedRequirements
    congr 1
    rw [List.foldl_append, List.foldl_append, List.foldl_cons, List.foldl_cons]
    congr 1
    dsimp only
    rw [List.foldl_append, List.foldl_append, List.foldl_cons]
    congr 1
    simp [h]
  · intro progress quests modules P1 P2 pid phsA phsB ph h
    unfold calculateCompletedRequirements
    rw [List.foldl_append, List.foldl_append, List.foldl_cons, List.foldl_cons]
    congr 1
    dsimp only
    rw [List.foldl_append, List.foldl_append, List.foldl_cons]
    congr 1
    simp [h]

/-- Witness for the amended C4: a list-free quest drops out of the middle
of a quest list, a bare phase drops out between two list-bearing phases, a
module with a bare second level throws, and a completed bare level
contributes nothing to the completed map. -/
theorem claim_C4_missing_lists_amended_witness :
    aggregateQuestRequirements [⟨"qa", some [⟨"a", 1⟩]⟩, ⟨"q", none⟩, ⟨"qb", some [⟨"b", 2⟩]⟩] =
      aggregateQuestRequirements [⟨"qa", some [⟨"a", 1⟩]⟩, ⟨"qb", some [⟨"b", 2⟩]⟩] ∧
    aggregateProjectRequirements
        [⟨"p1", [⟨1, some [⟨"a", 2⟩], none⟩, ⟨2, none, none⟩, ⟨3, some [⟨"b", 1⟩], none⟩]⟩] =
      aggregateProjectRequirements
        [⟨"p1", [⟨1, some [⟨"a", 2⟩], none⟩, ⟨3, some [⟨"b", 1⟩], none⟩]⟩] ∧
    aggregateHideoutRequirements [⟨"m2", [⟨1, some [⟨"a", 1⟩]⟩, ⟨2, none⟩]⟩] = .error () ∧
    calculateCompletedRequirements ⟨[], [("m3-1", ⟨true⟩)], [], 1⟩ [] [⟨"m3", [⟨1, none⟩]⟩] [] =
      calculateCompletedRequirements ⟨[], [("m3-1", ⟨true⟩)], [], 1⟩ [] [⟨"m3", []⟩] [] :=
  ⟨claim_C4_missing_lists_amended.1 [⟨"qa", some [⟨"a", 1⟩]⟩] [⟨"qb", some [⟨"b", 2⟩]⟩]
     ⟨"q", none⟩ rfl,
   claim_C4_missing_lists_amended.2.1 [] [] "p1" [⟨1, some [⟨"a", 2⟩], none⟩]
     [⟨3, some [⟨"b", 1⟩], none⟩] ⟨2, none, none⟩ rfl,
   claim_C4_missing_lists_amended.2.2.2.1 [⟨"m2", [⟨1, some [⟨"a", 1⟩]⟩, ⟨2, none⟩]⟩]
     (by decide),
   claim_C4_missing_lists_amended.2.2.2.2.2.1 ⟨[], [("m3-1", ⟨true⟩)], [], 1⟩ [] [] []
     "m3" [] [] ⟨1, none⟩ [] rfl⟩

/-- Counterexample to C5 as stated: a catalog carrying a zero quantity (here
a quest requiring a×0) makes calculateItemRequirements emit the key a with
quantity 0, so the produced total map is not restricted to strictly
positive values for every catalog input. -/
theorem claim_C5_counterexample :
    ¬ (∀ (quests : List Quest) (modules : List HideoutModule) (projects : List Project)
        (t : ItemRequirements), calculateItemRequirements quests modules projects = .ok t →
        ∀ k v, alook t k = some v → 0 < v) := by
  intro h
  have := h [⟨"q0", some [⟨"a", 0⟩]⟩] [] [] [("a", 0)] rfl "a" 0 (by decide)
  exact absurd this (by decide)

/-- C5 (amended): the remaining map stores only strictly positive values
for every pair of input maps; the total and completed maps store only
strictly positive values whenever every requirement quantity in the catalog
is strictly positive (a zero or negative catalog quantity can surface as a
non-positive stored value); a key missing from a map reads as quantity 0. -/
theorem claim_C5_positive_values_amended :
    (∀ (total completed : ItemRequirements) (k : String) (v : Int),
      alook (calculateRemainingRequirements total completed) k = some v → 0 < v) ∧
    (∀ (quests : List Quest) (modules : List HideoutModule) (projects : List Project)
        (t : ItemRequirements), catalogQuantitiesPos quests modules projects →
      calculateItemRequirements quests modules projects = .ok t →
      ∀ k v, alook t k = some v → 0 < v) ∧
    (∀ (progress : GameProgress) (quests : List Quest) (modules : List HideoutModule)
        (projects : List Project), catalogQuantitiesPos quests modules projects →
      ∀ k v, alook (calculateCompletedRequirements progress quests modules projects) k = some v →
        0 < v) ∧
    (∀ (m : ItemRequirements) (k : String), alook m k = none → getD m k = 0) := by
  refine ⟨?_, ?_, ?_, ?_⟩
  · intro total completed k v halook
    exact allPos_calculateRemainingRequirements total completed (k, v)
      (alook_mem _ _ _ halook)
  · intro quests modules projects t hpos ht k v halook
    cases hagg : aggregateHideoutRequirements modules with
    | error e =>
        rw [calculateItemRequirements, hagg] at ht
        exact Except.noConfusion ht
    | ok hreqs =>
        rw [calculateItemRequirements, hagg] at ht
        have ht' : addRequirements (addRequirements (addRequirements []
            (aggregateQuestRequirements quests)) hreqs)
            (aggregateProjectRequirements projects) = t :=
          (Except.ok.injEq _ _).mp ht
        have h1 : allPos (aggregateQuestRequirements quests) :=
          allPos_aggregateQuestRequirements quests hpos.1
        have h2 : allPos hreqs :=
          allPos_foldModules modules hpos.2.1 [] hreqs hagg (by intro kv hkv; simp at hkv)
        have h3 : allPos (aggregateProjectRequirements projects) :=
          allPos_aggregateProjectRequirements projects hpos.2.2
        have hall : allPos t := by
          rw [← ht']
          exact allPos_addRequirements _ _
            (allPos_addRequirements _ _
              (allPos_addRequirements _ _ (by intro kv hkv; simp at hkv) h1) h2) h3
        exact hall (k, v) (alook_mem _ _ _ halook)
  · intro progress quests modules projects hpos k v halook
    exact allPos_calculateCompletedRequirements progress quests modules projects hpos (k, v)
      (alook_mem _ _ _ halook)
  · intro m k h
    simp [getD, h]

/-- Witness for the amended C5: remaining total a=5 with nothing completed
stores a=5, which is strictly positive. -/
theorem claim_C5_positive_values_amended_witness :
    alook (calculateRemainingRequirements [("a", 5)] []) "a" = some 5 ∧ (0 : Int) < 5 :=
  ⟨by decide, claim_C5_positive_values_amended.1 [("a", 5)] [] "a" 5 (by decide)⟩

/-- C6: getHideoutKey concatenates the module id, a hyphen and the decimal
level (so scrappy at level 2 yields scrappy-2), getProjectKey does the same
with the project id and phase, and calculateCompletedRequirements performs
its hideout and project progress lookups at exactly those strings: two
progress snapshots agreeing at every such composite key of the catalog (and
on the quest map) produce the same completed map. -/
theorem claim_C6_composite_keys :
    (∀ (moduleId : String) (level : Nat),
      getHideoutKey moduleId level = moduleId ++ "-" ++ toString level) ∧
    (∀ (projectId : String) (phase : Nat),
      getProjectKey projectId phase = projectId ++ "-" ++ toString phase) ∧
    getHideoutKey "scrappy" 2 = "scrappy-2" ∧
    (∀ (pr pr' : GameProgress) (quests : List Quest) (modules : List HideoutModule)
        (projects : List Project),
      pr.quests = pr'.quests →
      (∀ m ∈ modules, ∀ lvl ∈ m.levels,
        alook pr.hideout (m.id ++ "-" ++ toString lvl.level) =
          alook pr'.hideout (m.id ++ "-" ++ toString lvl.level)) →
      (∀ p ∈ projects, ∀ ph ∈ p.phases,
        alook pr.projects (p.id ++ "-" ++ toString ph.phase) =
          alook pr'.projects (p.id ++ "-" ++ toString ph.phase)) →
      calculateCompletedRequirements pr quests modules projects =
        calculateCompletedRequirements pr' quests modules projects) := by
  refine ⟨fun _ _ => rfl, fun _ _ => rfl, by decide, ?_⟩
  intro pr pr' quests modules projects hq hh hp
  refine calculateCompletedRequirements_congr pr pr' quests modules projects ?_ ?_ ?_
  · intro q _
    unfold questCompletedFlag
    rw [hq]
  · intro m hm lvl hlvl
    unfold hideoutCompletedFlag getHideoutKey
    rw [hh m hm lvl hlvl]
  · intro p hp2 ph hph
    unfold projectCompletedFlag getProjectKey
    rw [hp p hp2 ph hph]

/-- Witness for C6: two snapshots differing only under the non-composite
key junk give the same completed map for the scrappy module. -/
theorem claim_C6_composite_keys_witness :
    getHideoutKey "scrappy" 2 = "scrappy-2" ∧
    calculateCompletedRequirements ⟨[], [("scrappy-2", ⟨true⟩), ("junk", ⟨true⟩)], [], 1⟩ []
        [⟨"scrappy", [⟨2, some [⟨"lemon", 3⟩]⟩]⟩] [] =
      calculateCompletedRequirements ⟨[], [("scrappy-2", ⟨true⟩)], [], 1⟩ []
        [⟨"scrappy", [⟨2, some [⟨"lemon", 3⟩]⟩]⟩] [] :=
  ⟨claim_C6_composite_keys.2.2.1,
   claim_C6_composite_keys.2.2.2 ⟨[], [("scrappy-2", ⟨true⟩), ("junk", ⟨true⟩)], [], 1⟩
     ⟨[], [("scrappy-2", ⟨true⟩)], [], 1⟩ [] [⟨"scrappy", [⟨2, some [⟨"lemon", 3⟩]⟩]⟩] []
     rfl (by decide) (by decide)⟩

/-- C10: with non-negative catalog quantities and every hideout level
carrying its requirement-entry list, the total computation succeeds and the
completed map never exceeds it pointwise, missing keys reading as 0. -/
theorem claim_C10_completed_le_total (progress : GameProgress) (quests : List Quest)
    (modules : List HideoutModule) (projects : List Project)
    (hnn : catalogQuantitiesNonneg quests modules projects)
    (hlv : ∀ m ∈ modules, ∀ lvl ∈ m.levels, lvl.requirementItemIds ≠ none) :
    ∃ t, calculateItemRequirements quests modules projects = .ok t ∧
      ∀ k, getD (calculateCompletedRequirements progress quests modules projects) k ≤
        getD t k := by
  obtain ⟨hreqs, hagg, hval⟩ := getD_aggregateHideoutRequirements modules hlv
  obtain ⟨t, ht, htval⟩ := getD_calculateItemRequirements quests modules projects hreqs hagg
  refine ⟨t, ht, fun k => ?_⟩
  rw [getD_calculateCompletedRequirements, htval k, getD_aggregateQuestRequirements,
    hval k, getD_aggregateProjectRequirements]
  exact add_le_add (add_le_add (completedQuestsSpec_le progress quests k hnn.1)
    (completedHideoutSpec_le progress modules k hnn.2.1))
    (completedProjectsSpec_le progress projects k hnn.2.2)

/-- Witness for C10: one completed quest needing a×10 gives completed a=10
against total a=10. -/
theorem claim_C10_completed_le_total_witness :
    getD (calculateCompletedRequirements ⟨[("q1", ⟨true⟩)], [], [], 1⟩
      [⟨"q1", some [⟨"a", 10⟩]⟩] [] []) "a" ≤ getD [("a", 10)] "a" := by
  obtain ⟨t, ht, hle⟩ := claim_C10_completed_le_total ⟨[("q1", ⟨true⟩)], [], [], 1⟩
    [⟨"q1", some [⟨"a", 10⟩]⟩] [] [] (by decide) (by decide)
  have h2 : calculateItemRequirements [⟨"q1", some [⟨"a", 10⟩]⟩] [] [] =
      Except.ok [("a", 10)] := rfl
  rw [ht] at h2
  have h3 : t = [("a", 10)] := (Except.ok.injEq _ _).mp h2
  rw [← h3]
  exact hle "a"
